import Mathlib

/-!
Verification of the PPO training core of this repository against its
natural-language specification.

The embedded code is `src/Old/ppo.py` (class `PPOAgent`) together with the
module-level import structure of `src/networks.py`.  Machine reals
(numpy/torch float32) are modelled as `ℚ`; external real-analytic routines
(`torch.log`, `numpy.std`) are passed in as explicit function/value
parameters.  The mutable attributes of the agent (`self.memory`,
`self.probs_list`, `self.beta_kl`) are threaded through explicitly as state.
-/

namespace RLPPO

/-- Sum of elementwise products: `torch.dot a b`, also `torch.sum (a * b)`, for
equal-length flat tensors.  `List.zipWith` truncates at the shorter list; every
call site in the embedded code applies it to equal-length vectors. -/
def dotQ (a b : List ℚ) : ℚ := (List.zipWith (· * ·) a b).sum

/-- Python bool arithmetic: the expression `1 - done` reads `done` as 0 or 1. -/
def b2q (d : Bool) : ℚ := if d then 1 else 0

/-- Modelled from the spec: the Trajectory Buffer (class `Memory`, imported by
ppo.py line 15 from memory.py, a file of this repository that is not under
src/).  Spec §3 and §4.1: four append-only lists (observations, actions,
rewards, done-flags) kept in lock-step. -/
structure Memory where
  observations : List (List ℚ)
  actions : List ℤ
  rewards : List ℚ
  dones : List Bool

/-- Modelled from the spec: a freshly constructed, empty buffer. -/
def Memory.empty : Memory := ⟨[], [], [], []⟩

/-- Modelled from the spec: `clear_memory()` empties all four lists. -/
def Memory.clear (_m : Memory) : Memory := Memory.empty

/-- Modelled from the spec: `len(self.memory)`.  By the lock-step invariant of
§4.1 all four lists have the same length; the loops of ppo.py use it to index
rewards and dones, so we read it off the rewards list. -/
def Memory.len (m : Memory) : ℕ := m.rewards.length

/-- State of the backward loop of `_returns_advantages` (ppo.py lines 93-105):
the returns and advantages built so far together with the running accumulators
`gae` and `next_value`. -/
structure GaeOut where
  returnsList : List ℚ
  advantages : List ℚ
  gae : ℚ
  nextValue : ℚ

/-- The backward loop of `_returns_advantages` (ppo.py lines 94-105) over
(reward, done, value) triples, head = earliest step; the recursion processes
index i after indices i+1..L-1, exactly like the `reversed(range(...))` loop.
`last` is initialised to the bootstrap `next_value` (line 94) and is never
reassigned inside the loop, so every return uses `nv0`; the accumulator
`next_value` advances to `values[i]` at the end of each iteration (line 105),
and `gae` accumulates per line 103. -/
def gaeAux (gam lam nv0 : ℚ) : List (ℚ × Bool × ℚ) → GaeOut
  | [] => ⟨[], [], 0, nv0⟩
  | (r, d, v) :: rest =>
    let t := gaeAux gam lam nv0 rest
    let ret := r + gam * nv0 * (1 - b2q d)
    let dlt := r + gam * t.nextValue * (1 - b2q d) - v
    let g := dlt + gam * lam * (1 - b2q d) * t.gae
    ⟨ret :: t.returnsList, g :: t.advantages, g, v⟩

/-- Arithmetic mean, `numpy.mean` (0/0 junk value for the empty list, which no
embedded call site hits). -/
def meanQ (xs : List ℚ) : ℚ := xs.sum / xs.length

/-- Population variance: the square of `numpy.std` (numpy default ddof = 0). -/
def popVarQ (xs : List ℚ) : ℚ := meanQ (xs.map (fun x => (x - meanQ xs) ^ 2))

/-- The denominator used by reward normalization (ppo.py line 91):
`rewards.std() + 1e-5`.  The std value itself (an irrational square root in
general) enters as the parameter `rstd`; `popVarQ` characterises it. -/
def rewardNormDenom (rstd : ℚ) : ℚ := rstd + 1 / 100000

/-- Ppo.py line 91: `(rewards - rewards.mean()) / (rewards.std() + 1e-5)`,
applied to a local numpy copy of the buffered rewards. -/
def normalizedRewards (rewards : List ℚ) (rstd : ℚ) : List ℚ :=
  rewards.map (fun r => (r - meanQ rewards) / rewardNormDenom rstd)

/-- `_returns_advantages` (ppo.py lines 67-110) with the buffer state threaded
explicitly.  Line 89 copies `self.memory.rewards` into a local numpy array (a
fresh array, not a view); the buffer itself is never written by the method, so
the post-call buffer state is the input buffer, returned unchanged in the
second component.  `rstd` is the value `rewards.std()` returned by numpy. -/
def returnsAdvantages (gam lam : ℚ) (normReward : Bool) (rstd : ℚ) (mem : Memory)
    (values : List ℚ) (nextValue : ℚ) : (List ℚ × List ℚ) × Memory :=
  let rw := if normReward then normalizedRewards mem.rewards rstd else mem.rewards
  let out := gaeAux gam lam nextValue (rw.zip (mem.dones.zip values))
  ((out.returnsList, out.advantages), mem)

/-- The returns recursion exactly as claim C1 and spec §4.2 word it: identical
to `gaeAux` except that `last` is reassigned to `value[i]` after each step, so
`last` always coincides with the `next_value` accumulator. -/
def gaeAuxSpecLast (gam lam nv0 : ℚ) : List (ℚ × Bool × ℚ) → GaeOut
  | [] => ⟨[], [], 0, nv0⟩
  | (r, d, v) :: rest =>
    let t := gaeAuxSpecLast gam lam nv0 rest
    let ret := r + gam * t.nextValue * (1 - b2q d)
    let dlt := r + gam * t.nextValue * (1 - b2q d) - v
    let g := dlt + gam * lam * (1 - b2q d) * t.gae
    ⟨ret :: t.returnsList, g :: t.advantages, g, v⟩

/-- Claim C1's reading of `_returns_advantages` (reward normalization off, as
in the claim). -/
def returnsAdvantagesSpecLast (gam lam : ℚ) (mem : Memory) (values : List ℚ)
    (nextValue : ℚ) : List ℚ × List ℚ :=
  let out := gaeAuxSpecLast gam lam nextValue (mem.rewards.zip (mem.dones.zip values))
  (out.returnsList, out.advantages)

theorem gaeAux_returnsList (gam lam nv0 : ℚ) (l : List (ℚ × Bool × ℚ)) :
    (gaeAux gam lam nv0 l).returnsList
      = l.map (fun t => t.1 + gam * nv0 * (1 - b2q t.2.1)) := by
  induction l with
  | nil => rfl
  | cons h t ih =>
    obtain ⟨r, d, v⟩ := h
    simp [gaeAux, ih]

/-- C1, counterexample: in the source, `last` is never reassigned inside the
loop (there is no `last = value[i]` statement; only `next_value = values[i]` on
line 105), so with rewards [0,0], dones [false,false], values [5,7],
gamma = 1, lambda = 0 and bootstrap value 1 the code returns [1,1], while the
recursion stated by the claim (with `last` advancing to value[i]) yields
[7,1]. -/
theorem c1_counterexample :
    (returnsAdvantages 1 0 false 0 ⟨[], [], [0, 0], [false, false]⟩ [5, 7] 1).1.1 = [1, 1]
    ∧ (returnsAdvantagesSpecLast 1 0 ⟨[], [], [0, 0], [false, false]⟩ [5, 7] 1).1 = [7, 1]
    ∧ ([1, 1] : List ℚ) ≠ [7, 1] := by
  refine ⟨?_, ?_, ?_⟩ <;>
    norm_num [returnsAdvantages, returnsAdvantagesSpecLast, gaeAux, gaeAuxSpecLast, b2q]

/-- C1 (amended): `last` keeps the bootstrap value for the whole loop, so
`return[i] = reward[i] + gamma * bootstrap * (1 - done[i])` for every i, while
the advantages follow the stated GAE recursion with `next_value` advancing to
`value[i]`; for a buffer of length 3 with all-false dones, constant reward r
and constant value v this yields the closed forms obtained by direct
expansion of those recursions. -/
theorem c1_amended (gam lam r v nv : ℚ) :
    (∀ (mem : Memory) (values : List ℚ),
        (returnsAdvantages gam lam false 0 mem values nv).1.1
          = (mem.rewards.zip (mem.dones.zip values)).map
              (fun t => t.1 + gam * nv * (1 - b2q t.2.1)))
    ∧ (returnsAdvantages gam lam false 0 ⟨[], [], [r, r, r], [false, false, false]⟩
          [v, v, v] nv).1
        = ([r + gam * nv, r + gam * nv, r + gam * nv],
           [(r + gam * v - v) + gam * lam * ((r + gam * v - v) + gam * lam * (r + gam * nv - v)),
            (r + gam * v - v) + gam * lam * (r + gam * nv - v),
            r + gam * nv - v]) := by
  constructor
  · intro mem values
    simp [returnsAdvantages, gaeAux_returnsList]
  · simp [returnsAdvantages, gaeAux, b2q]

/-- C10 (amended): when reward normalization is enabled, `_returns_advantages`
normalizes a local copy: line 89 copies the buffered rewards into a fresh numpy
array and line 91 rebinds that local name, so the computation consumes the
normalized values while the Trajectory Buffer's stored rewards are left
unchanged. -/
theorem c10_amended (gam lam rstd nv : ℚ) (mem : Memory) (values : List ℚ) :
    (returnsAdvantages gam lam true rstd mem values nv).2 = mem
    ∧ (returnsAdvantages gam lam true rstd mem values nv).1.1
        = ((normalizedRewards mem.rewards rstd).zip (mem.dones.zip values)).map
            (fun t => t.1 + gam * nv * (1 - b2q t.2.1)) :=
  ⟨rfl, by simp [returnsAdvantages, gaeAux_returnsList]⟩

/-- C10, counterexample: with buffered rewards [1, 3] (whose numpy population
std is exactly 1, certified by the variance conjunct) and normalization
enabled, the buffer still holds [1, 3] after the call, although the
normalization genuinely changes the values — so the stored rewards are not
replaced by their normalization. -/
theorem c10_counterexample :
    (returnsAdvantages 1 1 true 1 ⟨[], [], [1, 3], [false, false]⟩ [0, 0] 0).2.rewards
        = [1, 3]
    ∧ normalizedRewards [1, 3] 1 ≠ [1, 3]
    ∧ popVarQ [1, 3] = 1 := by
  refine ⟨rfl, ?_, ?_⟩ <;>
    norm_num [normalizedRewards, meanQ, rewardNormDenom, popVarQ]

/-- Row-wise gather of the probability mass of the taken actions:
`tensor.gather(1, actions.long().view(-1,1))` followed by `.view(-1)`
(ppo.py lines 231-232).  Out-of-range indices default to 0 here; torch would
raise, and no embedded property touches that case. -/
def gatherRows (prob : List (List ℚ)) (acts : List ℕ) : List ℚ :=
  List.zipWith (fun row a => row.getD a 0) prob acts

/-- The denominators used by the discrete gather-based ratio (ppo.py line 233):
the raw gathered old-policy probabilities — no epsilon is added. -/
def discRatioDenoms (oldProb : List (List ℚ)) (acts : List ℕ) : List ℚ :=
  gatherRows oldProb acts

/-- Discrete probability ratio (ppo.py lines 229-233):
`num.view(-1) / denom.view(-1)` elementwise. -/
def discRatioVect (prob oldProb : List (List ℚ)) (acts : List ℕ) : List ℚ :=
  List.zipWith (· / ·) (gatherRows prob acts) (discRatioDenoms oldProb acts)

/-- The denominator used by the continuous density ratio (ppo.py line 238):
`old_prob + 1e-6`. -/
def contRatioDenom (o : ℚ) : ℚ := o + 1 / 1000000

/-- Continuous probability ratio (ppo.py line 238): `prob / (old_prob + 1e-6)`
elementwise. -/
def contRatioVect (prob oldProb : List ℚ) : List ℚ :=
  List.zipWith (fun p o => p / contRatioDenom o) prob oldProb

/-- The discrete ratio as claim C4 / spec §7 word it: with a small additive
epsilon in the denominator. -/
def discRatioVectEpsSpec (prob oldProb : List (List ℚ)) (acts : List ℕ) : List ℚ :=
  List.zipWith (· / ·) (gatherRows prob acts) ((gatherRows oldProb acts).map contRatioDenom)

/-- C4, counterexample: the discrete gather-based ratio (line 233) divides by
the raw gathered old probability with no epsilon: on matching one-action
distributions the code yields exactly 1 while the epsilon-guarded version the
claim describes does not, and a gathered old probability of 0 yields a zero
denominator. -/
theorem c4_counterexample :
    discRatioVect [[1]] [[1]] [0] = [1]
    ∧ discRatioVectEpsSpec [[1]] [[1]] [0] ≠ [1]
    ∧ discRatioDenoms [[0, 1]] [0] = [0] := by
  refine ⟨?_, ?_, ?_⟩ <;>
    norm_num [discRatioVect, discRatioVectEpsSpec, discRatioDenoms, gatherRows,
      contRatioDenom]

/-- C4 (amended): reward normalization (line 91) and the continuous density
ratio (line 238) do add a small positive epsilon (1e-5 resp. 1e-6) to their
denominators, so those denominators are positive whenever the guarded quantity
is nonnegative; the discrete gather-based ratio (line 233), however, divides by
the raw gathered old probability with no epsilon, so a zero probability there
produces a zero denominator. -/
theorem c4_amended :
    (∀ rstd : ℚ, 0 ≤ rstd → 0 < rewardNormDenom rstd)
    ∧ (∀ o : ℚ, 0 ≤ o → 0 < contRatioDenom o)
    ∧ (∀ (rewards : List ℚ) (rstd : ℚ),
        normalizedRewards rewards rstd
          = rewards.map (fun r => (r - meanQ rewards) / rewardNormDenom rstd))
    ∧ (∀ (p old : List (List ℚ)) (acts : List ℕ),
        discRatioVect p old acts
          = List.zipWith (· / ·) (gatherRows p acts) (discRatioDenoms old acts))
    ∧ discRatioDenoms [[0, 1]] [0] = [0] := by
  refine ⟨?_, ?_, fun _ _ => rfl, fun _ _ _ => rfl, ?_⟩
  · intro rstd h
    simp only [rewardNormDenom]
    linarith
  · intro o h
    simp only [contRatioDenom]
    linarith
  · norm_num [discRatioDenoms, gatherRows]

/-- C4, witness for the amended theorem at concrete guarded quantities. -/
theorem c4_witness : 0 < rewardNormDenom 0 ∧ 0 < contRatioDenom 0 :=
  ⟨c4_amended.1 0 le_rfl, c4_amended.2.1 0 le_rfl⟩

/-- Old-policy selection from the Policy Snapshot History
(ppo.py lines 211-217): the sole entry when the history has exactly one entry,
otherwise the second-to-last entry.  (`none` can only arise from histories the
driver never produces: `optimize_model` appends the current policy output
before any loss computes a ratio, so the history is nonempty at every call.) -/
def oldProbSelect {α : Type} (l : List α) : Option α :=
  if l.length == 1 then l[0]? else l[l.length - 2]?

theorem zipWith_self_eq_map {α β : Type} (f : α → α → β) (l : List α) :
    List.zipWith f l l = l.map (fun x => f x x) := by
  induction l with
  | nil => rfl
  | cons h t ih => simp [ih]

/-- C6: the old-policy reference is the second-to-last history entry once the
history has at least two entries, and the sole entry when it has exactly one;
in that single-entry bootstrap case the sole entry is the snapshot of the
current policy output (appended on line 328 before the loss runs), so the
gather-based ratio of the current output against it is 1 in every coordinate
(for gathered probabilities that are nonzero, as softmax outputs are). -/
theorem c6_old_policy_selection :
    (∀ l : List (List (List ℚ)), 2 ≤ l.length → oldProbSelect l = l[l.length - 2]?)
    ∧ (∀ p : List (List ℚ), oldProbSelect [p] = some p)
    ∧ (∀ (p : List (List ℚ)) (acts : List ℕ),
        (∀ x ∈ gatherRows p acts, x ≠ 0) →
        ∀ y ∈ discRatioVect p p acts, y = 1) := by
  refine ⟨?_, ?_, ?_⟩
  · intro l h
    have hne : (l.length == 1) = false := by
      simp only [beq_eq_false_iff_ne, ne_eq]
      omega
    simp [oldProbSelect, hne]
  · intro p
    simp [oldProbSelect]
  · intro p acts hx y hy
    rw [discRatioVect, discRatioDenoms, zipWith_self_eq_map] at hy
    obtain ⟨x, hmem, rfl⟩ := List.mem_map.mp hy
    exact div_self (hx x hmem)

/-- C6, witness: a two-entry history selects the first (second-to-last) entry,
and the single-entry bootstrap ratio is 1 on a concrete uniform two-action
distribution. -/
theorem c6_witness :
    oldProbSelect [[[(1 : ℚ)]], [[(2 : ℚ)]]] = some [[(1 : ℚ)]]
    ∧ ∀ y ∈ discRatioVect [[(1 : ℚ)/2, 1/2]] [[(1 : ℚ)/2, 1/2]] [0], y = 1 := by
  constructor
  · have h := c6_old_policy_selection.1 [[[(1 : ℚ)]], [[(2 : ℚ)]]] (by norm_num)
    simpa using h
  · exact c6_old_policy_selection.2.2 [[(1 : ℚ)/2, 1/2]] [0]
      (by norm_num [gatherRows])

/-- Names bound at module level in src/Old/ppo.py: the imports of lines 1-16
and the class definition (line 18).  Line 13,
`from torch.distributions import normal`, is commented out in the source, and
line 16 imports only CustomValueNetwork and CustomDiscreteActorNetwork from
networks. -/
def ppoModuleNames : List String :=
  ["pd", "itertools", "np", "datetime", "gym", "Monitor", "Box", "Discrete",
   "torch", "nn", "optim", "F", "Memory", "CustomValueNetwork",
   "CustomDiscreteActorNetwork", "PPOAgent"]

/-- Names bound at module level in src/networks.py (imports of lines 1-10 and
the three class definitions). -/
def networksModuleNames : List String :=
  ["torch", "nn", "F", "MultivariateNormal", "Normal", "sys", "np",
   "CustomValueNetwork", "CustomDiscreteActorNetwork", "ContinuousActorNetwork"]

/-- Local names bound in PPOAgent.compute_proba_ratio when its continuous
branch evaluates `normal.Normal(... config["std"] ...)` on line 225: the
method parameters and the variable assigned on lines 221/223. -/
def computeProbaRatioLocals : List String :=
  ["self", "prob", "actions", "old_prob_mean"]

/-- Python name resolution for a bare name inside compute_proba_ratio: local
scope first, then module globals (builtins bind none of the names at issue);
an unresolved name raises NameError at evaluation time. -/
def resolvesInComputeProbaRatio (n : String) : Bool :=
  computeProbaRatioLocals.contains n || ppoModuleNames.contains n

/-- The module-level name the actor construction references
(ppo.py lines 55-58). -/
def actorClassName (discrete : Bool) : String :=
  if discrete then "CustomDiscreteActorNetwork" else "ContinuousActorNetwork"

/-- Evaluating the actor-construction statement of `PPOAgent.__init__`:
referencing an unbound global raises NameError, modelled as an error result. -/
def constructActor (discrete : Bool) : Except String String :=
  if ppoModuleNames.contains (actorClassName discrete) then
    Except.ok (actorClassName discrete)
  else Except.error "NameError"

/-- C2: the continuous code paths are not executable — `ContinuousActorNetwork`
is defined in networks.py but never imported by ppo.py, so constructing a
PPOAgent for a continuous action space raises NameError on line 58, and the
names `normal` and `config` used by the continuous probability-ratio branch
(line 225) are likewise unbound; the discrete construction succeeds. -/
theorem c2_continuous_namerror :
    constructActor false = Except.error "NameError"
    ∧ constructActor true = Except.ok "CustomDiscreteActorNetwork"
    ∧ resolvesInComputeProbaRatio "normal" = false
    ∧ resolvesInComputeProbaRatio "config" = false
    ∧ networksModuleNames.contains "ContinuousActorNetwork" = true :=
  ⟨rfl, rfl, rfl, rfl, rfl⟩

/-- A2C_loss, discrete branch (ppo.py lines 200-203): loss starts at 0 and
accumulates `loss -= log(prob[i, actions[i]] + 1e-6) * advantages[i]`.
`logf` stands for `torch.log`, an external real-analytic routine. -/
def A2ClossDiscrete (logf : ℚ → ℚ) (prob : List (List ℚ)) (acts : List ℕ)
    (adv : List ℚ) : ℚ :=
  (List.range acts.length).foldl
    (fun loss i =>
      loss - logf ((prob.getD i []).getD (acts.getD i 0) 0 + 1 / 1000000) * adv.getD i 0)
    0

/-- A2C_loss, continuous branch (ppo.py line 205):
`loss = torch.dot(torch.log(prob.view(-1) + 1e-6), advantages)` — note that the
source has no negation here. -/
def A2ClossContinuous (logf : ℚ → ℚ) (probFlat adv : List ℚ) : ℚ :=
  dotQ (probFlat.map (fun p => logf (p + 1 / 1000000))) adv

/-- The continuous A2C loss as claim C3 / spec §4.4 word it: the NEGATIVE dot
product of `log(prob.flattened + eps)` with the advantages. -/
def A2ClossContinuousSpec (logf : ℚ → ℚ) (probFlat adv : List ℚ) : ℚ :=
  -dotQ (probFlat.map (fun p => logf (p + 1 / 1000000))) adv

/-- C3: line 205 computes the positive dot product, i.e. exactly the negation
of what the claim states; at a concrete input where the log factor is nonzero
the two disagree (exhibited with the stand-in log x = x - 1, for which
log 1 = 0 as for the true logarithm). -/
theorem c3_continuous_a2c_sign :
    (∀ (logf : ℚ → ℚ) (p a : List ℚ),
        A2ClossContinuous logf p a = -A2ClossContinuousSpec logf p a)
    ∧ A2ClossContinuous (fun x => x - 1) [1] [1] = 1 / 1000000
    ∧ A2ClossContinuousSpec (fun x => x - 1) [1] [1] = -(1 / 1000000)
    ∧ A2ClossContinuous (fun x => x - 1) [1] [1]
        ≠ A2ClossContinuousSpec (fun x => x - 1) [1] [1] := by
  refine ⟨fun logf p a => by simp [A2ClossContinuous, A2ClossContinuousSpec], ?_, ?_, ?_⟩ <;>
    norm_num [A2ClossContinuous, A2ClossContinuousSpec, dotQ]

/-- `torch.clamp(x, lo, hi)`. -/
def clampQ (x lo hi : ℚ) : ℚ := min (max x lo) hi

/-- The clipped PPO surrogate applied to a ratio vector
(ppo.py lines 252-255):
`- sum(min(ratio * adv, clamp(ratio, 1-eps, 1+eps) * adv))`. -/
def clippedSurrogate (eps : ℚ) (ratioVect adv : List ℚ) : ℚ :=
  -(List.zipWith (fun rv a => min (rv * a) (clampQ rv (1 - eps) (1 + eps) * a))
      ratioVect adv).sum

/-- clipped_loss (ppo.py lines 246-256) in the discrete case: the ratio vector
comes from compute_proba_ratio against the old-policy snapshot; the product
reduction of lines 249-250 applies only to multi-dimensional (continuous)
actions and is skipped for the scalar discrete actions embedded here. -/
def clippedLoss (eps : ℚ) (prob : List (List ℚ)) (probsList : List (List (List ℚ)))
    (acts : List ℕ) (adv : List ℚ) : ℚ :=
  clippedSurrogate eps (discRatioVect prob ((oldProbSelect probsList).getD []) acts) adv

theorem clip_terms_in_band (eps : ℚ) :
    ∀ (ratioVect adv : List ℚ), (∀ rv ∈ ratioVect, 1 - eps ≤ rv ∧ rv ≤ 1 + eps) →
      List.zipWith (fun rv a => min (rv * a) (clampQ rv (1 - eps) (1 + eps) * a))
          ratioVect adv
        = List.zipWith (· * ·) ratioVect adv
  | [], _, _ => by simp
  | _ :: _, [], _ => by simp
  | rv :: rs, a :: rest, h => by
    have h1 := h rv (List.mem_cons_self _ _)
    have hc : clampQ rv (1 - eps) (1 + eps) = rv := by
      rw [clampQ, max_eq_left h1.1, min_eq_left h1.2]
    simp only [List.zipWith_cons_cons, hc, min_self]
    exact congrArg _ (clip_terms_in_band eps rs rest
      (fun x hx => h x (List.mem_cons_of_mem _ hx)))

/-- C9: when every ratio entry lies in [1-eps, 1+eps] the clipped surrogate
equals the unclipped surrogate `-sum(ratio * advantage)` exactly; each entry's
contribution is the min of the unclipped and the clipped term; and clipped_loss
is this surrogate applied to the computed probability-ratio vector. -/
theorem c9_clipped_loss (eps : ℚ) (ratioVect adv : List ℚ) :
    ((∀ rv ∈ ratioVect, 1 - eps ≤ rv ∧ rv ≤ 1 + eps) →
        clippedSurrogate eps ratioVect adv = -dotQ ratioVect adv)
    ∧ (∀ rv a : ℚ, clippedSurrogate eps [rv] [a]
          = -min (rv * a) (clampQ rv (1 - eps) (1 + eps) * a))
    ∧ (∀ (prob : List (List ℚ)) (probsList : List (List (List ℚ))) (acts : List ℕ),
        clippedLoss eps prob probsList acts adv
          = clippedSurrogate eps
              (discRatioVect prob ((oldProbSelect probsList).getD []) acts) adv) := by
  refine ⟨?_, ?_, fun _ _ _ => rfl⟩
  · intro h
    rw [clippedSurrogate, clip_terms_in_band eps ratioVect adv h]
    rfl
  · intro rv a
    simp [clippedSurrogate]

/-- C9, witness: a concrete in-band ratio/advantage pair with eps = 0.2. -/
theorem c9_witness :
    clippedSurrogate (1/5) [1, 11/10] [2, 3] = -dotQ [1, 11/10] [2, 3] :=
  (c9_clipped_loss (1/5) [1, 11/10] [2, 3]).1 (by norm_num [List.forall_mem_cons])

/-- The KL term of adaptative_KL_loss, discrete branch (ppo.py lines 263-265):
`kl += (old_prob[i] * (old_prob[i].log() - prob[i].log())).sum()` summed over
the minibatch rows.  `logf` stands for the tensor log. -/
def klDiscrete (logf : ℚ → ℚ) (oldP newP : List (List ℚ)) : ℚ :=
  (List.zipWith (fun orow nrow =>
      (List.zipWith (fun o n => o * (logf o - logf n)) orow nrow).sum) oldP newP).sum

/-- adaptative_KL_loss (ppo.py lines 259-286), discrete branch, with the
mutable `self.beta_kl` threaded explicitly: returns (loss, updated beta).
The loss uses the beta value current at entry; afterwards beta is halved when
kl < d_targ/1.5, doubled when kl > d_targ*1.5, else kept (lines 281-284). -/
def adaptativeKLloss (logf : ℚ → ℚ) (dtarg : ℚ) (prob : List (List ℚ)) (acts : List ℕ)
    (adv : List ℚ) (probsList : List (List (List ℚ))) (beta : ℚ) : ℚ × ℚ :=
  let oldProb := (oldProbSelect probsList).getD []
  let kl := klDiscrete logf oldProb prob
  let loss := -dotQ (discRatioVect prob oldProb acts) adv + beta * kl
  let beta1 :=
    if kl < dtarg / (3 / 2) then beta / 2
    else if dtarg * (3 / 2) < kl then beta * 2
    else beta
  (loss, beta1)

/-- C7: the returned loss is `-sum(ratio * advantage) + beta * KL` with the
entry value of beta, and (for a positive KL target, where the two thresholds
are in order) the returned beta is halved below d_targ/1.5, doubled above
d_targ*1.5, and unchanged inside the band. -/
theorem c7_adaptive_kl (logf : ℚ → ℚ) (dtarg : ℚ) (prob : List (List ℚ))
    (acts : List ℕ) (adv : List ℚ) (probsList : List (List (List ℚ))) (beta : ℚ)
    (hd : 0 < dtarg) :
    (adaptativeKLloss logf dtarg prob acts adv probsList beta).1
      = -dotQ (discRatioVect prob ((oldProbSelect probsList).getD []) acts) adv
        + beta * klDiscrete logf ((oldProbSelect probsList).getD []) prob
    ∧ (klDiscrete logf ((oldProbSelect probsList).getD []) prob < dtarg / (3 / 2) →
        (adaptativeKLloss logf dtarg prob acts adv probsList beta).2 = beta / 2)
    ∧ (dtarg * (3 / 2) < klDiscrete logf ((oldProbSelect probsList).getD []) prob →
        (adaptativeKLloss logf dtarg prob acts adv probsList beta).2 = beta * 2)
    ∧ (dtarg / (3 / 2) ≤ klDiscrete logf ((oldProbSelect probsList).getD []) prob →
        klDiscrete logf ((oldProbSelect probsList).getD []) prob ≤ dtarg * (3 / 2) →
        (adaptativeKLloss logf dtarg prob acts adv probsList beta).2 = beta) := by
  have hb : (adaptativeKLloss logf dtarg prob acts adv probsList beta).2
      = (if klDiscrete logf ((oldProbSelect probsList).getD []) prob < dtarg / (3 / 2)
          then beta / 2
         else if dtarg * (3 / 2) < klDiscrete logf ((oldProbSelect probsList).getD []) prob
          then beta * 2
         else beta) := rfl
  refine ⟨rfl, ?_, ?_, ?_⟩
  · intro h
    rw [hb, if_pos h]
  · intro h
    rw [hb, if_neg (by linarith), if_pos h]
  · intro h1 h2
    rw [hb, if_neg (by linarith), if_neg (by linarith)]

/-- C7, witness: at the bootstrap snapshot the KL is 0, below the lower
threshold of target 1, so beta = 4 is halved to 2. -/
theorem c7_witness :
    (adaptativeKLloss (fun x => x) 1 [[1]] [0] [1] [[[1]]] 4).2 = 2 := by
  have h := (c7_adaptive_kl (fun x => x) 1 [[1]] [0] [1] [[[1]]] 4 (by norm_num)).2.1
    (by norm_num [klDiscrete, oldProbSelect])
  norm_num at h
  exact h

/-- The three loss names the Optimization Driver recognizes
(ppo.py line 131). -/
def recognizedLossNames : List String := ["A2C_loss", "adaptative_KL_loss", "clipped_loss"]

/-- training lines 131-134: the warning `Unknown loss function, using clipped
loss as default loss` is printed exactly when the configured loss name is not
recognized; no exception is raised. -/
def unknownLossWarning (name : String) : Bool := decide (name ∉ recognizedLossNames)

/-- Loss selection inside optimize_model (ppo.py lines 337-348): a chain of
string comparisons whose final else falls through to clipped_loss.  Returns
(loss, beta after the call); only the adaptive-KL branch mutates beta. -/
def lossDispatch (logf : ℚ → ℚ) (eps dtarg : ℚ) (name : String) (prob : List (List ℚ))
    (acts : List ℕ) (adv : List ℚ) (probsList : List (List (List ℚ))) (beta : ℚ) :
    ℚ × ℚ :=
  if name = "clipped_loss" then (clippedLoss eps prob probsList acts adv, beta)
  else if name = "adaptative_KL_loss" then
    adaptativeKLloss logf dtarg prob acts adv probsList beta
  else if name = "A2C_loss" then (A2ClossDiscrete logf prob acts adv, beta)
  else (clippedLoss eps prob probsList acts adv, beta)

/-- C8: an unrecognized loss name triggers the warning and every minibatch
update computes exactly what loss_name = clipped_loss would compute; no error
is raised. -/
theorem c8_unknown_loss_fallback (logf : ℚ → ℚ) (eps dtarg : ℚ) (name : String)
    (prob : List (List ℚ)) (acts : List ℕ) (adv : List ℚ)
    (probsList : List (List (List ℚ))) (beta : ℚ)
    (h : name ∉ recognizedLossNames) :
    unknownLossWarning name = true
    ∧ lossDispatch logf eps dtarg name prob acts adv probsList beta
        = lossDispatch logf eps dtarg "clipped_loss" prob acts adv probsList beta := by
  simp only [recognizedLossNames, List.mem_cons, List.not_mem_nil, or_false,
    not_or] at h
  obtain ⟨h1, h2, h3⟩ := h
  constructor
  · simp [unknownLossWarning, recognizedLossNames, h1, h2, h3]
  · rw [lossDispatch, lossDispatch, if_neg h3, if_neg h2, if_neg h1, if_pos rfl]

/-- C8, witness: the unrecognized name "foo" warns and falls back to the
clipped loss. -/
theorem c8_witness :
    unknownLossWarning "foo" = true
    ∧ lossDispatch (fun x => x) (1/5) 1 "foo" [[1]] [0] [1] [[[1]]] 1
        = lossDispatch (fun x => x) (1/5) 1 "clipped_loss" [[1]] [0] [1] [[[1]]] 1 :=
  c8_unknown_loss_fallback (fun x => x) (1/5) 1 "foo" [[1]] [0] [1] [[[1]]] 1
    (by decide)

/-- The end-to-end scenario environment of claim C5 / spec §8 (an external
collaborator, not repository code): a discrete two-action environment with
deterministic reward +1 per step and done after 3 steps; the state counts the
steps taken. -/
def scnEnvStep (s : ℕ) (_a : ℤ) : ℕ × ℚ × Bool := (s + 1, 1, decide (3 ≤ s + 1))

/-- Observation vector the scenario environment reports for a state. -/
def scnObs (s : ℕ) : List ℚ := [(s : ℚ)]

/-- The agent state the end-to-end claims observe: environment state, the
Trajectory Buffer, the Policy Snapshot History `self.probs_list`, and the
running `timestep_count` of training. -/
structure DriverState where
  envS : ℕ
  mem : Memory
  probsList : List (List (List ℚ))
  timestep : ℕ

/-- `range(0, L, b)`: the minibatch start indices of optimize_model's loop
(ppo.py line 304, over `returns.size()[0]` = the buffer length). -/
def batchStarts (L b : ℕ) : List ℕ := (List.range L).filter (fun i => i % b == 0)

/-- `observations[i : i+b]` (ppo.py line 309). -/
def sliceFrom (l : List (List ℚ)) (i b : ℕ) : List (List ℚ) := (l.drop i).take b

/-- One optimize_model call (ppo.py lines 288-370) in the discrete case,
restricted to the state the end-to-end claims observe.  For each minibatch
start the current actor output on that minibatch is appended to the Policy
Snapshot History (line 328).  The critic/actor forward-backward passes and
optimizer steps mutate only network parameters — abstracted into the external
`policyEval` parameter — and never the buffer (which the call only reads,
through `_returns_advantages`, embedded above as `returnsAdvantages`) or the
snapshot history; the loss values (embedded above as `lossDispatch`) are
returned to the caller, not stored in the state. -/
def optimizeModel (b : ℕ) (policyEval : List (List ℚ) → List (List ℚ))
    (st : DriverState) : DriverState :=
  let snaps := (batchStarts st.mem.len b).map
    (fun i => policyEval (sliceFrom st.mem.observations i b))
  { st with probsList := st.probsList ++ snaps }

/-- n-fold iteration: the `for epoch in range(epochs)` loop of training
(ppo.py line 160). -/
def applyN {α : Type} (f : α → α) : ℕ → α → α
  | 0, x => x
  | n + 1, x => applyN f n (f x)

/-- The inner step loop of training (ppo.py lines 141-170) running against the
scenario environment: append the just-observed state, select an action (the
actor's sampling is the external `selectAct`), step the environment, record
done and reward; once `timestep_count % optEvery == 0`, run `epochs` calls of
optimize_model followed by `clear_memory()`; break when the episode is done.
`fuel` counts the remaining iterations of `range(max_steps)`. -/
def runSteps (epochs optEvery b : ℕ) (selectAct : List ℚ → ℤ)
    (policyEval : List (List ℚ) → List (List ℚ)) : ℕ → DriverState → DriverState
  | 0, st => st
  | fuel + 1, st =>
    let obs := scnObs st.envS
    let a := selectAct obs
    let sr := scnEnvStep st.envS a
    let mem1 : Memory := ⟨st.mem.observations ++ [obs], st.mem.actions ++ [a],
                          st.mem.rewards ++ [sr.2.1], st.mem.dones ++ [sr.2.2]⟩
    let t1 := st.timestep + 1
    let st1 : DriverState := ⟨sr.1, mem1, st.probsList, t1⟩
    let st2 :=
      if t1 % optEvery == 0 then
        let sto := applyN (optimizeModel b policyEval) epochs st1
        { sto with mem := sto.mem.clear }
      else st1
    if sr.2.2 then st2 else runSteps epochs optEvery b selectAct policyEval fuel st2

theorem applyN_optimizeModel_mem (b : ℕ) (pe : List (List ℚ) → List (List ℚ))
    (n : ℕ) (st : DriverState) :
    (applyN (optimizeModel b pe) n st).mem = st.mem := by
  induction n generalizing st with
  | zero => rfl
  | succ k ih =>
    rw [applyN, ih]
    rfl

theorem applyN_optimizeModel_probsLen (b : ℕ) (pe : List (List ℚ) → List (List ℚ))
    (n : ℕ) (st : DriverState) :
    (applyN (optimizeModel b pe) n st).probsList.length
      = st.probsList.length + n * (batchStarts st.mem.len b).length := by
  induction n generalizing st with
  | zero => simp [applyN]
  | succ k ih =>
    rw [applyN, ih]
    simp only [optimizeModel, List.length_append, List.length_map]
    ring

theorem batchStarts_three (b : ℕ) (hb : 1 ≤ b) :
    (batchStarts 3 b).length = (3 + b - 1) / b := by
  match b, hb with
  | 1, _ => decide
  | 2, _ => decide
  | (n + 3), _ =>
    have h1 : 1 % (n + 3) = 1 := Nat.mod_eq_of_lt (by omega)
    have h2 : 2 % (n + 3) = 2 := Nat.mod_eq_of_lt (by omega)
    have hr : (batchStarts 3 (n + 3)).length = 1 := by
      simp [batchStarts, List.range_succ, List.filter, h1, h2]
    rw [hr]
    have : 3 + (n + 3) - 1 = n + 5 := by omega
    rw [this]
    symm
    exact Nat.div_eq_of_lt_le (by omega) (by omega)

/-- C5 (amended): in the scenario environment with optimize_every = 3 the
optimize trigger fires at timestep 3 with the 3 transitions buffered; each of
the `epochs` optimize_model calls of the trigger appends ceil(3/batch_size)
snapshots, so afterwards the buffer length is 0 and the Policy Snapshot History
has grown by exactly epochs * ceil(3/batch_size). -/
theorem c5_amended (epochs b maxSteps : ℕ) (selectAct : List ℚ → ℤ)
    (policyEval : List (List ℚ) → List (List ℚ)) (p0 : List (List (List ℚ)))
    (hb : 1 ≤ b) (hms : 3 ≤ maxSteps) :
    (runSteps epochs 3 b selectAct policyEval maxSteps
        ⟨0, Memory.empty, p0, 0⟩).mem.len = 0
    ∧ (runSteps epochs 3 b selectAct policyEval maxSteps
        ⟨0, Memory.empty, p0, 0⟩).probsList.length
          = p0.length + epochs * ((3 + b - 1) / b) := by
  obtain ⟨k, rfl⟩ : ∃ k, maxSteps = k + 3 := ⟨maxSteps - 3, by omega⟩
  constructor <;>
    simp [runSteps, scnEnvStep, scnObs, Memory.empty, Memory.clear, Memory.len,
      applyN_optimizeModel_mem, applyN_optimizeModel_probsLen,
      batchStarts_three b hb]

/-- C5, counterexample: with epochs = 2 and batch_size = 1 the buffer still
returns to length 0, but the Policy Snapshot History grows by
6 = epochs * ceil(3/1), not by ceil(3/1) = 3 as the claim states: the optimize
trigger (training line 160) calls optimize_model once per epoch, and every call
appends one snapshot per minibatch. -/
theorem c5_counterexample :
    (runSteps 2 3 1 (fun _ => 0) (fun obs => obs.map (fun _ => [1/2, 1/2])) 5
        ⟨0, Memory.empty, [], 0⟩).mem.len = 0
    ∧ (runSteps 2 3 1 (fun _ => 0) (fun obs => obs.map (fun _ => [1/2, 1/2])) 5
        ⟨0, Memory.empty, [], 0⟩).probsList.length = 6
    ∧ (6 : ℕ) ≠ (3 + 1 - 1) / 1 := by
  refine ⟨?_, ?_, by decide⟩
  · simp [runSteps, scnEnvStep, scnObs, Memory.empty, Memory.clear, Memory.len,
      optimizeModel, applyN, batchStarts]
  · simp [runSteps, scnEnvStep, scnObs, Memory.empty, Memory.clear, Memory.len,
      optimizeModel, applyN, batchStarts]
    decide

/-- C5, witness for the amended theorem: one epoch, batch_size 2, so the
history grows by ceil(3/2) = 2. -/
theorem c5_witness :
    (runSteps 1 3 2 (fun _ => 0) (fun obs => obs.map (fun _ => [1/2, 1/2])) 3
        ⟨0, Memory.empty, [], 0⟩).mem.len = 0
    ∧ (runSteps 1 3 2 (fun _ => 0) (fun obs => obs.map (fun _ => [1/2, 1/2])) 3
        ⟨0, Memory.empty, [], 0⟩).probsList.length = 2 := by
  have h := c5_amended 1 2 3 (fun _ => 0) (fun obs => obs.map (fun _ => [1/2, 1/2]))
    [] (by decide) (by decide)
  simpa using h

end RLPPO
